import Mathlib

/-!
Verification of the eventify event-emitter library: a shallow embedding of
the pattern matcher, the subscription registry and the dispatch engine,
with theorems settling the specification's claims.

Go strings are modelled as `List Char` (one `Char` per byte; all patterns
and names involved are ASCII, where byte-exact and character-exact
comparison coincide).  A Go function that can panic (out-of-range index)
is embedded as an `Option`-valued function returning `none` exactly where
the panic occurs.
-/

namespace Eventify

/-- Go strings, byte sequences. -/
abbrev Str := List Char

/-- The wildcard marker character. -/
def star : Char := '*'

/-- Match kinds, from the `matchExact`/`matchPrefix`/`matchSuffix`/
`matchContains`/`matchWildcard` constants of the source. -/
inductive MatchKind where
  | exact
  | pref
  | suff
  | contains
  | wildcard
deriving DecidableEq

/-- The `Matcher` struct of the source: the pattern without wildcards and
the match kind. -/
structure Matcher where
  pattern : Str
  matchType : MatchKind
deriving DecidableEq

/-- Embedding of Go `NewMatcher`.  The `switch` cases are translated in
order.  The third Go case reads `s[0]` with no length guard, so on the
empty string the code panics with an index-out-of-range error; the
embedding returns `none` exactly there. -/
def NewMatcher (s : Str) : Option Matcher :=
  if s = [star] then
    some { pattern := [], matchType := .wildcard }
  else if 1 < s.length ∧ s.head? = some star ∧ s.getLast? = some star then
    some { pattern := (s.drop 1).dropLast, matchType := .contains }
  else if s.length = 0 then
    none
  else if s.head? = some star then
    some { pattern := s.drop 1, matchType := .suff }
  else if 0 < s.length ∧ s.getLast? = some star then
    some { pattern := s.dropLast, matchType := .pref }
  else
    some { pattern := s, matchType := .exact }

/-- Embedding of Go `strings.Contains s pat`: scan every suffix of `s`
for `pat` as a leading segment. -/
def containsSub : Str → Str → Bool
  | [], pat => pat.isEmpty
  | c :: rest, pat => pat.isPrefixOf (c :: rest) || containsSub rest pat

/-- Embedding of Go `Matcher.Match`.  The slicing expressions
`target[:len(p)]` and `target[len(target)-len(p):]` are guarded by the
length comparison exactly as in the source. -/
def Matcher.Match (m : Matcher) (t : Str) : Bool :=
  match m.matchType with
  | .wildcard => true
  | .pref =>
      decide (m.pattern.length ≤ t.length) && (t.take m.pattern.length == m.pattern)
  | .suff =>
      decide (m.pattern.length ≤ t.length) &&
        (t.drop (t.length - m.pattern.length) == m.pattern)
  | .contains => containsSub t m.pattern
  | .exact => t == m.pattern

/-- Events (the `Event` interface, `ErrorHandler` and `IsAsync`
capabilities flattened into one record): name, payload byte slice
(`none` models a nil Go slice), whether the value implements
`ErrorHandler`, whether it implements `IsAsync`. -/
structure Event where
  etype : Str
  payload : Option Str
  errHandlerPresent : Bool
  isAsync : Bool
deriving DecidableEq

/-- Go `NewEvent`: the built-in event struct implements neither
`ErrorHandler` nor `IsAsync`. -/
def NewEvent (ty : Str) (payload : Option Str) : Event :=
  { etype := ty, payload := payload, errHandlerPresent := false, isAsync := false }

/-- Listeners (the `Listener`, `Namable` and `IsAsync` capabilities
flattened): `name = none` models a listener that does not implement
`Namable`; `handle e = some err` models `Handle` returning a non-nil
error with message `err`, `none` a nil error.  The `id` field is
bookkeeping for the delivery trace: it stands for the identity of the Go
listener value. -/
structure Listener where
  id : Nat
  name : Option Str
  isAsync : Bool
  handle : Event → Option Str

/-- The registry table: the `sync.Map` from pattern strings to listener
slices, modelled as an association list with unique keys; all accesses
in the source run under the instance mutex, so a sequential model is
faithful for the sequential claims. -/
abbrev Table := List (Str × List Listener)

/-- Model of `sync.Map.Store`: replace the value under an existing key, or append
a fresh entry. -/
def store : Table → Str → List Listener → Table
  | [], k, v => [(k, v)]
  | (k0, v0) :: t, k, v =>
      if k0 = k then (k, v) :: t else (k0, v0) :: store t k v

/-- Model of `sync.Map.Load`. -/
def load : Table → Str → Option (List Listener)
  | [], _ => none
  | (k0, v0) :: t, k => if k0 = k then some v0 else load t k

/-- Model of `sync.Map.Delete`. -/
def deleteKey : Table → Str → Table
  | [], _ => []
  | (k0, v0) :: t, k => if k0 = k then t else (k0, v0) :: deleteKey t k

/-- Go `Eventify.Register`: `LoadOrStore(eventType, []Listener{})`
followed by `Store(eventType, append(existing, listener))`; the net
effect on the table is appending `listener` to the (possibly fresh)
slice under `eventType`. -/
def Register (tbl : Table) (eventType : Str) (listener : Listener) : Table :=
  store tbl eventType (((load tbl eventType).getD []) ++ [listener])

/-- Registering a batch of listeners under one pattern, in order. -/
def registerAll (tbl : Table) (eventType : Str) (ls : List Listener) : Table :=
  ls.foldl (fun t l => Register t eventType l) tbl

/-- Go `Eventify.Unregister`, translated clause by clause:
an empty variadic deletes the whole entry; otherwise the given listeners
are filtered for `Namable`; the registered slice is split into named
(`lsCopy`) and unnamed (`newLs` seed) parts; then for every registered
named listener and for every given named listener whose name differs,
the registered listener is appended to the result, which is stored
back. -/
def Unregister (tbl : Table) (eventType : Str) (given : List Listener) : Table :=
  match given with
  | [] => deleteKey tbl eventType
  | _ =>
    let namedGiven := given.filter (fun l => l.name.isSome)
    if namedGiven.isEmpty then tbl
    else
      match load tbl eventType with
      | none => tbl
      | some ls =>
        let lsCopy := ls.filter (fun l => l.name.isSome)
        let newLs0 := ls.filter (fun l => l.name.isNone)
        if lsCopy.isEmpty then tbl
        else
          let adds := lsCopy.flatMap (fun l =>
            (namedGiven.filter (fun g => l.name != g.name)).map (fun _ => l))
          store tbl eventType (newLs0 ++ adds)

/-- Go `Eventify._MatchedListeners`: `Range` over the table, collecting
the listener slices of every pattern whose compiled matcher accepts the
event type.  A pattern whose compilation panics (empty pattern) makes
the whole walk panic, hence `none`. -/
def MatchedListeners (tbl : Table) (eventType : Str) : Option (List Listener) :=
  match tbl with
  | [] => some []
  | (k, v) :: rest => do
      let m ← NewMatcher k
      let r ← MatchedListeners rest eventType
      pure (if m.Match eventType then v ++ r else r)

/-- Observable delivery actions, the trace of one publish:
`invoke lid` records a synchronous call of listener `lid`'s handler;
`errCb e err` records a synchronous call of the event's `ErrorHandler`
with the event and the returned error; `launch lid` records the spawning
of the goroutine that will deliver to listener `lid` (the asynchronous
path; its internal effects are concurrent and are not traced). -/
inductive Action where
  | invoke (lid : Nat)
  | errCb (e : Event) (err : Str)
  | launch (lid : Nat)
deriving DecidableEq

/-- Go `Eventify._Trigger` for one listener: asynchronous deliveries are
launched on their own goroutine; synchronous deliveries call the handler
inline and, when it returns a non-nil error and the event implements
`ErrorHandler`, call that callback inline with the event and the
error. -/
def Trigger (e : Event) (l : Listener) (async : Bool) : List Action :=
  if async then [.launch l.id]
  else
    .invoke l.id ::
      (match l.handle e with
       | some err => if e.errHandlerPresent then [.errCb e err] else []
       | none => [])

/-- The loop body of Go `Eventify._Emit` over an already-collected
listener list: each listener is triggered with the async flag
`isAsyncEvent || isAsyncListener`. -/
def emitActions (e : Event) (ls : List Listener) : List Action :=
  ls.flatMap (fun l => Trigger e l (e.isAsync || l.isAsync))

/-- Go `Eventify._Emit` (and `Emit`, which merely delegates): collect
the matched listeners and trigger each. -/
def Emit (tbl : Table) (e : Event) : Option (List Action) :=
  (MatchedListeners tbl e.etype).map (emitActions e)

/-- Payloads passed to `EmitBy`, one constructor per branch of the
dynamic type tests in the source: a value already satisfying `Event`, a
Go `string`, a `[]byte`, the nil interface value, or any other value,
represented by the outcome of `json.Marshal` on it (`none` models a
marshal error). -/
inductive Payload where
  | pEvent (e : Event)
  | pStr (s : Str)
  | pBytes (b : Str)
  | pNil
  | pOther (enc : Option Str)

/-- Go `Eventify._AnyToBytes`: nil payloads yield a nil slice, strings
their bytes, byte slices themselves, anything else its JSON encoding,
with a marshal error yielding a nil slice.  (The `pEvent` arm is
unreachable from `EmitBy`, which filters events out first; it is given
the default-arm behaviour of the source on an unencodable value.) -/
def AnyToBytes : Payload → Option Str
  | .pNil => none
  | .pStr s => some s
  | .pBytes b => some b
  | .pOther enc => enc
  | .pEvent _ => none

/-- Go `Eventify.EmitBy`: a payload that already satisfies `Event` is
emitted unchanged; otherwise a new event `(eventType, AnyToBytes payload)`
is emitted. -/
def EmitBy (tbl : Table) (eventType : Str) (p : Payload) : Option (List Action) :=
  match p with
  | .pEvent e => Emit tbl e
  | _ => Emit tbl (NewEvent eventType (AnyToBytes p))

/-- State-transformer view of `Emit`: the registry table an `Emit` call
leaves behind, paired with its delivery trace.  The emit path of the
source performs only `Range` reads on the table (no `Store`, no
`Delete`), so the table it returns is the table it was given. -/
def EmitS (tbl : Table) (e : Event) : Table × Option (List Action) :=
  (tbl, Emit tbl e)

/-- State-transformer view of `EmitBy`, as for `EmitS`. -/
def EmitByS (tbl : Table) (eventType : Str) (p : Payload) :
    Table × Option (List Action) :=
  (tbl, EmitBy tbl eventType p)

/-- The listener ids invoked synchronously, in order, by a trace. -/
def invokedIds : List Action → List Nat
  | [] => []
  | .invoke i :: tr => i :: invokedIds tr
  | .errCb _ _ :: tr => invokedIds tr
  | .launch _ :: tr => invokedIds tr

/-- String literals as byte lists, for concrete instances. -/
def strL (s : String) : Str := s.toList

/-- A no-op handler, the normalization target of `NewListener nil`. -/
def noopHandle : Event → Option Str := fun _ => none

/-- Named listener "a", id 1 (a `NewNamedListener` value). -/
def aL : Listener := { id := 1, name := some (strL "a"), isAsync := false, handle := noopHandle }

/-- Named listener "b", id 2. -/
def bL : Listener := { id := 2, name := some (strL "b"), isAsync := false, handle := noopHandle }

/-- Named listener "c", id 3. -/
def cL : Listener := { id := 3, name := some (strL "c"), isAsync := false, handle := noopHandle }

/-- The scan `containsSub` decides the sublist-segment relation. -/
theorem containsSub_iff (s pat : Str) : containsSub s pat = true ↔ pat <:+: s := by
  induction s with
  | nil =>
      simp [containsSub, List.isEmpty_iff]
  | cons c rest ih =>
      simp only [containsSub, Bool.or_eq_true, List.isPrefixOf_iff_prefix, ih]
      exact (List.infix_cons_iff).symm

/-- The guarded slice comparison of the `matchPrefix` arm decides the
leading-segment relation. -/
theorem prefCheck_iff (p t : Str) :
    (decide (p.length ≤ t.length) && (t.take p.length == p)) = true ↔ p <+: t := by
  simp only [Bool.and_eq_true, decide_eq_true_eq, beq_iff_eq]
  constructor
  · rintro ⟨_, htake⟩
    exact List.prefix_iff_eq_take.mpr htake.symm
  · intro hp
    exact ⟨hp.length_le, (List.prefix_iff_eq_take.mp hp).symm⟩

/-- Loading a freshly stored key returns the stored value. -/
theorem load_store (tbl : Table) (k : Str) (v : List Listener) :
    load (store tbl k v) k = some v := by
  induction tbl with
  | nil => simp [store, load]
  | cons kv t ih =>
      obtain ⟨k0, v0⟩ := kv
      by_cases h : k0 = k
      · subst h; simp [store, load]
      · simp [store, load, h, ih]

/-- Registering a batch under a key whose entry holds `xs` appends the
batch to `xs`. -/
theorem registerAll_single (k : Str) (ls : List Listener) :
    ∀ xs, registerAll [(k, xs)] k ls = [(k, xs ++ ls)] := by
  induction ls with
  | nil => intro xs; simp [registerAll]
  | cons l ls ih =>
      intro xs
      have hreg : Register [(k, xs)] k l = [(k, xs ++ [l])] := by
        simp [Register, load, store]
      calc registerAll [(k, xs)] k (l :: ls)
          = registerAll (Register [(k, xs)] k l) k ls := rfl
        _ = registerAll [(k, xs ++ [l])] k ls := by rw [hreg]
        _ = [(k, (xs ++ [l]) ++ ls)] := ih (xs ++ [l])
        _ = [(k, xs ++ l :: ls)] := by simp

/-- Matched listeners of a one-entry table whose pattern accepts the
event type. -/
theorem matchedListeners_single (k : Str) (v : List Listener) (ty : Str) (m : Matcher)
    (hm : NewMatcher k = some m) (hmt : m.Match ty = true) :
    MatchedListeners [(k, v)] ty = some v := by
  simp [MatchedListeners, hm, hmt]

/-- The projection `invokedIds` distributes over trace concatenation. -/
theorem invokedIds_append (tr tr' : List Action) :
    invokedIds (tr ++ tr') = invokedIds tr ++ invokedIds tr' := by
  induction tr with
  | nil => rfl
  | cons a tr ih => cases a <;> simp [invokedIds, ih]

/-- A synchronous trigger invokes exactly its listener. -/
theorem invokedIds_trigger_sync (e : Event) (l : Listener) :
    invokedIds (Trigger e l false) = [l.id] := by
  rw [Trigger, if_neg (by simp : ¬ (false = true))]
  cases hh : l.handle e with
  | none => rfl
  | some err => cases e.errHandlerPresent <;> simp [invokedIds]

/-- A fully synchronous emission invokes exactly the collected
listeners, in order. -/
theorem invokedIds_emitActions (e : Event) (ls : List Listener)
    (he : e.isAsync = false) (hls : ∀ l ∈ ls, l.isAsync = false) :
    invokedIds (emitActions e ls) = ls.map (fun l => l.id) := by
  induction ls with
  | nil => rfl
  | cons l ls ih =>
      have hl : l.isAsync = false := hls l (List.mem_cons_self l ls)
      have hrest : ∀ x ∈ ls, x.isAsync = false :=
        fun x hx => hls x (List.mem_cons_of_mem l hx)
      have hasync : (e.isAsync || l.isAsync) = false := by rw [he, hl]; rfl
      calc invokedIds (emitActions e (l :: ls))
          = invokedIds (Trigger e l (e.isAsync || l.isAsync) ++ emitActions e ls) := by
            rw [emitActions, List.flatMap_cons]; rfl
        _ = invokedIds (Trigger e l (e.isAsync || l.isAsync)) ++
              invokedIds (emitActions e ls) := invokedIds_append _ _
        _ = [l.id] ++ ls.map (fun l => l.id) := by
              rw [hasync, invokedIds_trigger_sync, ih hrest]
        _ = (l :: ls).map (fun l => l.id) := rfl

/-- C2: the claim says `Compile` is defined for every pattern string,
in particular that the empty pattern is classified `Exact`.  The source
contradicts it: the third `switch` case reads `s[0]` without a length
guard, so `NewMatcher ""` performs an out-of-range access (a Go panic);
the embedding returns `none` there instead of an `Exact` matcher. -/
theorem newMatcher_empty_pattern_panics : NewMatcher [] = none := by decide

/-- C4: a pattern of length greater than one whose first and last
characters are the wildcard marker compiles to a contains-matcher whose
literal is the pattern with both markers stripped, and it matches a name
exactly when that literal occurs in the name as a contiguous segment
(including as a full match or at either end). -/
theorem starMiddleStar_matches_contains (s t : Str)
    (h1 : 1 < s.length) (hf : s.head? = some star) (hl : s.getLast? = some star) :
    ∃ m, NewMatcher s = some m ∧ m.pattern = (s.drop 1).dropLast ∧
      (m.Match t = true ↔ (s.drop 1).dropLast <:+: t) := by
  have hs : s ≠ [star] := by
    intro h; subst h; simp at h1
  refine ⟨⟨(s.drop 1).dropLast, .contains⟩, ?_, rfl, ?_⟩
  · simp only [NewMatcher]
    rw [if_neg hs, if_pos ⟨h1, hf, hl⟩]
  · exact containsSub_iff t _

/-- Witness for C4, at the spec's own instance: pattern `"*mid*"`,
name `"xmidy"`. -/
theorem starMiddleStar_matches_contains_witness :
    ∃ m, NewMatcher (strL "*mid*") = some m ∧
      m.pattern = ((strL "*mid*").drop 1).dropLast ∧
      (m.Match (strL "xmidy") = true ↔
        ((strL "*mid*").drop 1).dropLast <:+: strL "xmidy") :=
  starMiddleStar_matches_contains (strL "*mid*") (strL "xmidy")
    (by decide) (by decide) (by decide)

/-- C5 counterexample: the claim quantifies over all prefixes including
those that begin with the wildcard marker.  For the prefix `"*"` the
pattern `"*" ++ "*"` compiles to a contains-matcher with the empty
literal, which accepts the name `"a"`, yet `"a"` does not start with
`"*"` — the claimed equivalence fails at this input. -/
theorem prefixStar_all_prefixes_cex :
    (NewMatcher (strL "*" ++ [star])).map (fun m => m.Match (strL "a")) = some true ∧
      ¬ (strL "*" <+: strL "a") := by
  exact ⟨by decide, by decide⟩

/-- C5 amended: for every prefix whose first character is not the
wildcard marker (the empty prefix included), `Compile (prefix ++ "*")`
matches a name exactly when the name starts with that prefix byte-exactly
(hence never a name shorter than the prefix). -/
theorem prefixStar_matches_leading (pre t : Str) (h : pre.head? ≠ some star) :
    ∃ m, NewMatcher (pre ++ [star]) = some m ∧ (m.Match t = true ↔ pre <+: t) := by
  cases pre with
  | nil =>
      refine ⟨⟨[], .wildcard⟩, rfl, ?_⟩
      simp [Matcher.Match]
  | cons c cs =>
      have hcs : c ≠ star := by simpa using h
      have hne : (c :: cs) ++ [star] ≠ [star] := by
        intro hEq
        have := congrArg List.length hEq
        simp at this
      have hcond2 : ¬ (1 < ((c :: cs) ++ [star]).length ∧
          ((c :: cs) ++ [star]).head? = some star ∧
          ((c :: cs) ++ [star]).getLast? = some star) := by
        rintro ⟨-, hh, -⟩
        rw [List.cons_append, List.head?_cons] at hh
        exact hcs (Option.some.inj hh)
      have hcond3 : ¬ (((c :: cs) ++ [star]).length = 0) := by simp
      have hcond4 : ¬ (((c :: cs) ++ [star]).head? = some star) := by
        rw [List.cons_append, List.head?_cons]
        intro hh
        exact hcs (Option.some.inj hh)
      have hcond5 : 0 < ((c :: cs) ++ [star]).length ∧
          ((c :: cs) ++ [star]).getLast? = some star :=
        ⟨by simp, List.getLast?_concat _⟩
      refine ⟨⟨c :: cs, .pref⟩, ?_, prefCheck_iff (c :: cs) t⟩
      simp only [NewMatcher]
      rw [if_neg hne, if_neg hcond2, if_neg hcond3, if_neg hcond4, if_pos hcond5,
        List.dropLast_concat]

/-- Witness for C5, at prefix `"user."` and name `"user.created"`. -/
theorem prefixStar_matches_leading_witness :
    ∃ m, NewMatcher (strL "user." ++ [star]) = some m ∧
      (m.Match (strL "user.created") = true ↔ strL "user." <+: strL "user.created") :=
  prefixStar_matches_leading (strL "user.") (strL "user.created") (by decide)

/-- C1: the claim says `Unregister` removes exactly the registered
listeners whose name matches a given identity and leaves every other
listener with unchanged multiplicity, in particular when several named
listeners are given at once.  The source contradicts it: the nested loop
appends each registered named listener once per given listener with a
different name, so with listeners named "a", "b", "c" registered under
"p", unregistering "a" and "b" together keeps "a" and "b" (each appended
once, for the one given listener it differs from) and duplicates "c"
(appended twice) — the table ends as `[a, b, c, c]` where the claim
demands `[c]`. -/
theorem unregister_two_given_anomaly :
    Unregister (registerAll [] (strL "p") [aL, bL, cL]) (strL "p") [aL, bL] =
      [((strL "p"), [aL, bL, cL, cL])] := rfl

/-- C3 counterexample: registering the single named listener `aL` under
"p" and then unregistering it by identity leaves the entry for "p"
present, mapped to the empty listener list, whereas the explicit
remove-all deletes the entry; the claim asserts the two agree (entry
absent). -/
theorem unregister_last_entry_remains_cex :
    Unregister (Register [] (strL "p") aL) (strL "p") [aL] = [((strL "p"), [])] ∧
    load (Unregister (Register [] (strL "p") aL) (strL "p") [aL]) (strL "p") = some [] ∧
    Unregister (Register [] (strL "p") aL) (strL "p") [] = [] ∧
    load (Unregister (Register [] (strL "p") aL) (strL "p") []) (strL "p") = none :=
  ⟨rfl, rfl, rfl, rfl⟩

/-- C3 amended: when identity-based `Unregister` removes the last
remaining subscriber under a pattern (a given named listener whose name
matches every registered listener under the pattern), the pattern's
entry is not cleared: it stays in the table, mapped to the empty
subscriber list.  Only the explicit remove-all deletes the entry. -/
theorem unregister_last_stores_empty (tbl : Table) (k : Str) (g : Listener)
    (ls : List Listener)
    (hg : g.name.isSome = true)
    (hload : load tbl k = some ls) (hne : ls ≠ [])
    (hall : ∀ l ∈ ls, l.name = g.name) :
    load (Unregister tbl k [g]) k = some [] := by
  have hsome : ∀ l ∈ ls, l.name.isSome = true := by
    intro l hl; rw [hall l hl]; exact hg
  have hfilterSome : ls.filter (fun l => l.name.isSome) = ls :=
    List.filter_eq_self.mpr hsome
  have hfilterNone : ls.filter (fun l => l.name.isNone) = [] := by
    rw [List.filter_eq_nil_iff]
    intro l hl hno
    have h2 := hsome l hl
    rw [Option.isNone_iff_eq_none] at hno
    rw [hno] at h2
    simp at h2
  have hng : ([g].filter (fun l => l.name.isSome)) = [g] := by
    simp [List.filter_cons, hg]
  have hadds : ls.flatMap
      (fun l => (([g].filter (fun g2 => l.name != g2.name)).map (fun _ => l))) = [] := by
    rw [List.flatMap_eq_nil_iff]
    intro l hl
    have hname : l.name = g.name := hall l hl
    simp [List.filter_cons, hname]
  have hlsE : ls.isEmpty = false := by
    rw [List.isEmpty_eq_false]; exact hne
  simp only [Unregister, hng, hload, hfilterSome, hfilterNone, hadds, hlsE,
    List.isEmpty_cons, List.append_nil, Bool.false_eq_true, if_false]
  exact load_store tbl k []

/-- Witness for C3's amended claim at a concrete registry. -/
theorem unregister_last_stores_empty_witness :
    load (Unregister (Register [] (strL "q") aL) (strL "q") [aL]) (strL "q") = some [] :=
  unregister_last_stores_empty (Register [] (strL "q") aL) (strL "q") aL [aL]
    rfl rfl (by simp)
    (by intro l hl; rw [List.mem_singleton] at hl; rw [hl])

/-- C6: in a synchronous publish, a failing listener's error is routed
to the event's `ErrorHandler` exactly once, inline, with the original
event and the exact returned error; the publish itself completes (the
error never reaches the publisher) and every other matched listener is
triggered exactly as it would be without the failure. -/
theorem handler_error_routed (tbl : Table) (e : Event) (pre post : List Listener)
    (lf : Listener) (err : Str)
    (hm : MatchedListeners tbl e.etype = some (pre ++ lf :: post))
    (he : e.isAsync = false) (hf : lf.isAsync = false)
    (hh : lf.handle e = some err) (heh : e.errHandlerPresent = true) :
    Emit tbl e =
      some (emitActions e pre ++
        Action.invoke lf.id :: Action.errCb e err :: emitActions e post) := by
  have hfl : Trigger e lf (e.isAsync || lf.isAsync) =
      [Action.invoke lf.id, Action.errCb e err] := by
    rw [he, hf]
    simp [Trigger, hh, heh]
  rw [Emit, hm]
  simp only [Option.map_some']
  rw [emitActions, List.flatMap_append, List.flatMap_cons]
  simp only [hfl]
  rfl

/-- Concrete event of type "x" carrying an `ErrorHandler`. -/
def evErr : Event :=
  { etype := strL "x", payload := none, errHandlerPresent := true, isAsync := false }

/-- A listener whose handler fails with error "boom". -/
def failL : Listener :=
  { id := 10, name := none, isAsync := false, handle := fun _ => some (strL "boom") }

/-- A listener whose handler succeeds. -/
def okL : Listener :=
  { id := 11, name := none, isAsync := false, handle := noopHandle }

/-- Witness for C6: under pattern "x", a failing listener followed by a
succeeding sibling; the trace interleaves exactly one error callback. -/
theorem handler_error_routed_witness :
    Emit [((strL "x"), [failL, okL])] evErr =
      some (emitActions evErr [] ++
        Action.invoke failL.id :: Action.errCb evErr (strL "boom") ::
          emitActions evErr [okL]) :=
  handler_error_routed [((strL "x"), [failL, okL])] evErr [] [okL] failL
    (strL "boom") rfl rfl rfl rfl rfl

/-- C8: registering N listeners under one pattern and synchronously
publishing a matching event invokes each of the N handlers exactly once,
in order (first conjunct); and in general a synchronous publish invokes
the handlers of exactly the collected matched-listener sequence, which
keeps one occurrence per matching pattern a listener is registered under
(duplicates preserved, no deduplication — second conjunct). -/
theorem publish_fanout (pat : Str) (ls : List Listener) (e : Event) (m : Matcher)
    (hm : NewMatcher pat = some m) (hmt : m.Match e.etype = true)
    (he : e.isAsync = false) (hls : ∀ l ∈ ls, l.isAsync = false) :
    (∃ tr, Emit (registerAll [] pat ls) e = some tr ∧
       invokedIds tr = ls.map (fun l => l.id)) ∧
    (∀ tbl ms, MatchedListeners tbl e.etype = some ms →
       (∀ l ∈ ms, l.isAsync = false) →
       ∃ tr, Emit tbl e = some tr ∧ invokedIds tr = ms.map (fun l => l.id)) := by
  have hgen : ∀ tbl ms, MatchedListeners tbl e.etype = some ms →
      (∀ l ∈ ms, l.isAsync = false) →
      ∃ tr, Emit tbl e = some tr ∧ invokedIds tr = ms.map (fun l => l.id) := by
    intro tbl ms hms hsync
    refine ⟨emitActions e ms, ?_, invokedIds_emitActions e ms he hsync⟩
    rw [Emit, hms]
    rfl
  refine ⟨?_, hgen⟩
  cases ls with
  | nil => exact ⟨[], rfl, rfl⟩
  | cons l0 ls' =>
      have htbl : registerAll [] pat (l0 :: ls') = [(pat, l0 :: ls')] := by
        calc registerAll [] pat (l0 :: ls')
            = registerAll (Register [] pat l0) pat ls' := rfl
          _ = registerAll [(pat, [l0])] pat ls' := by simp [Register, load, store]
          _ = [(pat, [l0] ++ ls')] := registerAll_single pat ls' [l0]
          _ = [(pat, l0 :: ls')] := rfl
      rw [htbl]
      exact hgen [(pat, l0 :: ls')] (l0 :: ls')
        (matchedListeners_single pat (l0 :: ls') e.etype m hm hmt) hls

/-- Three plain listeners for the C8 witness. -/
def w1 : Listener := { id := 21, name := none, isAsync := false, handle := noopHandle }

/-- Second plain listener for the C8 witness. -/
def w2 : Listener := { id := 22, name := none, isAsync := false, handle := noopHandle }

/-- Third plain listener for the C8 witness. -/
def w3 : Listener := { id := 23, name := none, isAsync := false, handle := noopHandle }

/-- A plain synchronous event of type "x" with no capabilities. -/
def evPlain : Event := NewEvent (strL "x") none

/-- Witness for C8 at three listeners under the exact pattern "x". -/
theorem publish_fanout_witness :
    (∃ tr, Emit (registerAll [] (strL "x") [w1, w2, w3]) evPlain = some tr ∧
       invokedIds tr = [w1, w2, w3].map (fun l => l.id)) ∧
    (∀ tbl ms, MatchedListeners tbl evPlain.etype = some ms →
       (∀ l ∈ ms, l.isAsync = false) →
       ∃ tr, Emit tbl evPlain = some tr ∧ invokedIds tr = ms.map (fun l => l.id)) :=
  publish_fanout (strL "x") [w1, w2, w3] evPlain
    { pattern := strL "x", matchType := .exact }
    (by decide) (by decide) rfl
    (by
      intro l hl
      simp only [List.mem_cons, List.not_mem_nil, or_false] at hl
      rcases hl with rfl | rfl | rfl <;> rfl)

/-- Listener L1 of the C9 scenario, registered under "user.*". -/
def lis1 : Listener := { id := 31, name := none, isAsync := false, handle := noopHandle }

/-- Listener L2 of the C9 scenario, registered under "*.paid". -/
def lis2 : Listener := { id := 32, name := none, isAsync := false, handle := noopHandle }

/-- The C9 registry: L1 under "user.*", L2 under "*.paid". -/
def tblScenario : Table :=
  Register (Register [] (strL "user.*") lis1) (strL "*.paid") lis2

/-- C9: with L1 under "user.*" and L2 under "*.paid", publishing
"user.created" invokes only L1, publishing "order.paid" invokes only L2,
and publishing "user.paid" invokes both (L1 via the leading-literal
rule, L2 via the trailing-literal rule). -/
theorem scenario_prefix_suffix_fanout :
    Emit tblScenario (NewEvent (strL "user.created") none) =
      some [Action.invoke 31] ∧
    Emit tblScenario (NewEvent (strL "order.paid") none) =
      some [Action.invoke 32] ∧
    Emit tblScenario (NewEvent (strL "user.paid") none) =
      some [Action.invoke 31, Action.invoke 32] :=
  ⟨rfl, rfl, rfl⟩

/-- C7: `EmitBy`'s conversion, case by case.  A payload already
satisfying the `Event` shape is emitted unchanged (so the emitted type
is the payload's own, not the given one); a text payload is emitted as
its bytes under the given type; a raw byte payload passes through
unchanged; the nil payload and a payload whose serialization fails both
yield an event with a nil payload — the publish is performed in every
case, never aborted by a conversion failure. -/
theorem emitBy_conversion (tbl : Table) (ty : Str) :
    (∀ e, EmitBy tbl ty (.pEvent e) = Emit tbl e) ∧
    (∀ s, EmitBy tbl ty (.pStr s) = Emit tbl (NewEvent ty (some s))) ∧
    (∀ b, EmitBy tbl ty (.pBytes b) = Emit tbl (NewEvent ty (some b))) ∧
    (EmitBy tbl ty .pNil = Emit tbl (NewEvent ty none)) ∧
    (∀ enc, EmitBy tbl ty (.pOther enc) = Emit tbl (NewEvent ty enc)) ∧
    (EmitBy tbl ty (.pOther none) = Emit tbl (NewEvent ty none)) :=
  ⟨fun _ => rfl, fun _ => rfl, fun _ => rfl, rfl, fun _ => rfl, rfl⟩

/-- C10: publishing never mutates the registry.  The emit path of the
source performs only `Range` reads; its state-transformer embedding
returns the table it was given, so the pattern set and every pattern's
subscriber list after `Emit` or `EmitBy` are exactly those before. -/
theorem emit_preserves_table (tbl : Table) (e : Event) (ty : Str) (p : Payload) :
    (EmitS tbl e).1 = tbl ∧ (EmitByS tbl ty p).1 = tbl ∧
      (∀ k, load (EmitS tbl e).1 k = load tbl k) ∧
      (∀ k, load (EmitByS tbl ty p).1 k = load tbl k) :=
  ⟨rfl, rfl, fun _ => rfl, fun _ => rfl⟩

end Eventify
